import Mathlib

/-!
Shallow embedding of the OpenMM CUDA nonbonded utilities
(`platforms/cuda/src/CudaNonbondedUtilities.h`) and of the reference
force computation in the Amoeba angle-force test
(`plugins/amoeba/platforms/reference/tests/TestReferenceAmoebaAngleForce.cpp`),
together with proofs of the specified properties.

Only the class interface of `CudaNonbondedUtilities` is present in the
repository sources (the member-function bodies live in a `.cpp` file that is
not part of the source tree).  Inline member functions and `ParameterInfo`
are therefore embedded directly from the header; the remaining operations are
modelled from the specification, as indicated in each doc comment.
-/

namespace OpenMMSpec

/-! ### ParameterInfo (from the header, lines 277-322) -/

/-- The class `CudaNonbondedUtilities::ParameterInfo`: the stored fields.  `CUdeviceptr`
is an opaque device-memory handle, embedded as a natural number. -/
structure ParameterInfo where
  name : String
  componentType : String
  type : String
  size : Int
  numComponents : Int
  memory : Nat
deriving Repr, DecidableEq

/-- The `ParameterInfo` constructor: stores each argument and derives `type`
as the bare `componentType` when `numComponents == 1`, and otherwise as
`componentType` with the (stream-printed) component count appended. -/
def ParameterInfo.make (name componentType : String) (numComponents size : Int)
    (memory : Nat) : ParameterInfo :=
  { name := name
    componentType := componentType
    numComponents := numComponents
    size := size
    memory := memory
    type := if numComponents == 1 then componentType
            else componentType ++ toString numComponents }

/-- The getter `ParameterInfo::getName`. -/
def ParameterInfo.getName (p : ParameterInfo) : String := p.name

/-- The getter `ParameterInfo::getComponentType`. -/
def ParameterInfo.getComponentType (p : ParameterInfo) : String := p.componentType

/-- The getter `ParameterInfo::getType`. -/
def ParameterInfo.getType (p : ParameterInfo) : String := p.type

/-- The getter `ParameterInfo::getNumComponents`. -/
def ParameterInfo.getNumComponents (p : ParameterInfo) : Int := p.numComponents

/-- The getter `ParameterInfo::getSize`. -/
def ParameterInfo.getSize (p : ParameterInfo) : Int := p.size

/-- The getter `ParameterInfo::getMemory`: returns (a mutable reference to) the stored
device-memory handle. -/
def ParameterInfo.getMemory (p : ParameterInfo) : Nat := p.memory

/-! ### Engine registration state (C5, C6) -/

/-- One call to `addInteraction` (header line 80): the arguments the caller
supplies when registering a term into the default interaction kernel. -/
structure AddInteractionCall where
  usesCutoff : Bool
  usesPeriodic : Bool
  usesExclusions : Bool
  cutoffDistance : ℚ
  exclusionList : List (List Nat)
  kernel : String
  forceGroup : Int
deriving Repr, DecidableEq

/-- The registration-relevant fields of a `CudaNonbondedUtilities` object
(header lines 266-270): the cutoff distance, the registered interaction
terms, and the force-launch geometry. -/
structure NbState where
  cutoff : ℚ
  terms : List AddInteractionCall
  numForceThreadBlocks : Int
  forceThreadBlockSize : Int
deriving Repr

/-- Modelled from the spec: the constructor leaves the cutoff distance
uninitialized — the sentinel value `-1.0` — with no interaction terms
registered; the launch geometry is taken from the device context. -/
def NbState.init (numForceThreadBlocks forceThreadBlockSize : Int) : NbState :=
  { cutoff := -1
    terms := []
    numForceThreadBlocks := numForceThreadBlocks
    forceThreadBlockSize := forceThreadBlockSize }

/-- Modelled from the spec: `addInteraction` registers the term into the
default kernel and records its cutoff distance as the engine's cutoff. -/
def NbState.addInteraction (s : NbState) (c : AddInteractionCall) : NbState :=
  { s with cutoff := c.cutoffDistance, terms := s.terms ++ [c] }

/-- Apply a sequence of `addInteraction` calls to a state. -/
def NbState.addAll (s : NbState) (cs : List AddInteractionCall) : NbState :=
  cs.foldl NbState.addInteraction s

/-- The getter `getHasInteractions` (header lines 138-140): `return cutoff != -1.0;`. -/
def NbState.getHasInteractions (s : NbState) : Bool := s.cutoff != -1

/-- The getter `getCutoffDistance` (header lines 132-134). -/
def NbState.getCutoffDistance (s : NbState) : ℚ := s.cutoff

/-- The getter `getNumForceThreadBlocks` (header lines 120-122). -/
def NbState.getNumForceThreadBlocks (s : NbState) : Int := s.numForceThreadBlocks

/-- The getter `getForceThreadBlockSize` (header lines 126-128). -/
def NbState.getForceThreadBlockSize (s : NbState) : Int := s.forceThreadBlockSize

/-- The getter `getNumEnergyBuffers` (header lines 102-104):
`return numForceThreadBlocks*forceThreadBlockSize;`. -/
def NbState.getNumEnergyBuffers (s : NbState) : Int :=
  s.numForceThreadBlocks * s.forceThreadBlockSize

/-! ### Neighbor-list engine (C1, C3, C4)

The bodies of `prepareInteractions`, `computeInteractions` and
`updateNeighborListSize` are not in the source tree (the header only declares
them); they are modelled from the specification, sections 3 and 4.3.
Distances are compared in squared form, which over exact arithmetic is
equivalent to comparing the distances themselves. -/

/-- A 3-D point with exact (rational) coordinates. -/
abbrev V3 : Type := ℚ × ℚ × ℚ

/-- Squared Euclidean distance between two points. -/
def dist2 (p q : V3) : ℚ :=
  (p.1 - q.1) ^ 2 + (p.2.1 - q.2.1) ^ 2 + (p.2.2 - q.2.2) ^ 2

/-- Modelled from the spec: a particle configuration as seen by the
neighbor-list engine — particle count, block size (the hardware parallel-unit
width), particle positions, cutoff distance, and the exclusion set, given as
a predicate on canonically ordered particle pairs. -/
structure NbConfig where
  numAtoms : Nat
  blockSize : Nat
  pos : Nat → V3
  cutoff : ℚ
  excl : Nat → Nat → Bool

/-- Number of particle blocks: `ceil(numAtoms / blockSize)`. -/
def NbConfig.numBlocks (c : NbConfig) : Nat :=
  (c.numAtoms + c.blockSize - 1) / c.blockSize

/-- The block owning particle `i`. -/
def NbConfig.blockOf (c : NbConfig) (i : Nat) : Nat := i / c.blockSize

/-- The particles belonging to block `b`. -/
def NbConfig.blockMembers (c : NbConfig) (b : Nat) : List Nat :=
  (List.range c.numAtoms).filter (fun i => i / c.blockSize == b)

/-- Minimum of a list of rationals (`0` on the empty list). -/
def listMin : List ℚ → ℚ
  | [] => 0
  | a :: t => t.foldl min a

/-- Maximum of a list of rationals (`0` on the empty list). -/
def listMax : List ℚ → ℚ
  | [] => 0
  | a :: t => t.foldl max a

/-- The coordinates of block `b`'s members along one axis. -/
def NbConfig.blockCoords (c : NbConfig) (axis : V3 → ℚ) (b : Nat) : List ℚ :=
  (c.blockMembers b).map (fun i => axis (c.pos i))

/-- Center of block `b`'s bounding box along one axis. -/
def NbConfig.blockCenter (c : NbConfig) (axis : V3 → ℚ) (b : Nat) : ℚ :=
  (listMin (c.blockCoords axis b) + listMax (c.blockCoords axis b)) / 2

/-- Half-extent of block `b`'s bounding box along one axis. -/
def NbConfig.blockExt (c : NbConfig) (axis : V3 → ℚ) (b : Nat) : ℚ :=
  (listMax (c.blockCoords axis b) - listMin (c.blockCoords axis b)) / 2

/-- One-axis separation of two intervals given by center and half-extent:
`max 0 (|c1 - c2| - (e1 + e2))`. -/
def axisGap (c1 e1 c2 e2 : ℚ) : ℚ := max 0 (|c1 - c2| - (e1 + e2))

/-- Squared minimum possible distance between the bounding boxes of blocks
`b1` and `b2`. -/
def NbConfig.blockGap2 (c : NbConfig) (b1 b2 : Nat) : ℚ :=
  axisGap (c.blockCenter (fun p => p.1) b1) (c.blockExt (fun p => p.1) b1)
      (c.blockCenter (fun p => p.1) b2) (c.blockExt (fun p => p.1) b2) ^ 2 +
  axisGap (c.blockCenter (fun p => p.2.1) b1) (c.blockExt (fun p => p.2.1) b1)
      (c.blockCenter (fun p => p.2.1) b2) (c.blockExt (fun p => p.2.1) b2) ^ 2 +
  axisGap (c.blockCenter (fun p => p.2.2) b1) (c.blockExt (fun p => p.2.2) b1)
      (c.blockCenter (fun p => p.2.2) b2) (c.blockExt (fun p => p.2.2) b2) ^ 2

/-- All tiles: the lower-triangular pairs `(x, y)` of block indices with
`y ≤ x < numBlocks`. -/
def NbConfig.allTiles (c : NbConfig) : List (Nat × Nat) :=
  (List.range c.numBlocks).flatMap (fun x =>
    (List.range (x + 1)).map (fun y => (x, y)))

/-- Modelled from the spec (section 4.3, phase 2): block-pair discovery keeps
exactly the tiles whose bounding-box separation is within the cutoff. -/
def NbConfig.interactingTilesList (c : NbConfig) : List (Nat × Nat) :=
  c.allTiles.filter (fun t => decide (c.blockGap2 t.1 t.2 ≤ c.cutoff ^ 2))

/-- The tile owning the particle pair `{i, j}`:
`(block(max i j), block(min i j))`. -/
def NbConfig.tileOf (c : NbConfig) (i j : Nat) : Nat × Nat :=
  (c.blockOf (max i j), c.blockOf (min i j))

/-- Whether the canonically ordered pair `{i, j}` is excluded. -/
def NbConfig.exclPair (c : NbConfig) (i j : Nat) : Bool :=
  c.excl (min i j) (max i j)

/-- Modelled from the spec (section 4.3, phase 4): the interaction-flag bit
of pair `{i, j}` in tile `t` is set exactly when the pair lives in tile `t`,
both particles exist, the exact distance is within the cutoff, and the pair
is not excluded. -/
def NbConfig.flagSet (c : NbConfig) (t : Nat × Nat) (i j : Nat) : Bool :=
  c.tileOf i j == t && i != j && decide (i < c.numAtoms) &&
    decide (j < c.numAtoms) &&
    decide (dist2 (c.pos i) (c.pos j) ≤ c.cutoff ^ 2) && !(c.exclPair i j)

/-- Pair `{i, j}` appears in tile `t`'s interaction flags with its bit set,
`t` being a discovered interacting tile. -/
def NbConfig.appears (c : NbConfig) (t : Nat × Nat) (i j : Nat) : Prop :=
  t ∈ c.interactingTilesList ∧ c.flagSet t i j = true

/-- Modelled from the spec: the default kernel's per-pair contribution (to
energy or to any force component), for a pair term `e`: pairs whose
interaction-flag bit is off contribute nothing. -/
def NbConfig.pairContribution (c : NbConfig) (e : Nat → Nat → ℚ)
    (t : Nat × Nat) (i j : Nat) : ℚ :=
  if c.flagSet t i j then e i j else 0

/-- The bitmask of interaction flags for tile `t = (x, y)`: one bit per
particle pair `(a, b)` of local indices within the tile, bit
`a * blockSize + b` being set when the flag of the corresponding global pair
is set. -/
def NbConfig.tileFlags (c : NbConfig) (t : Nat × Nat) : Nat :=
  ((List.range c.blockSize).flatMap (fun a =>
    (List.range c.blockSize).map (fun b => (a, b)))).foldl
    (fun m ab =>
      if c.flagSet t (t.1 * c.blockSize + ab.1) (t.2 * c.blockSize + ab.2)
      then m ||| 2 ^ (ab.1 * c.blockSize + ab.2) else m) 0

/-- Modelled from the spec (section 4.3, phases 2-3): discovery with a
capacity `cap` returns the first `cap` discovered tiles together with the
full interaction count (the atomic counter counts every appended tile, even
past capacity). -/
def NbConfig.discoverWithCap (c : NbConfig) (cap : Nat) :
    List (Nat × Nat) × Nat :=
  (c.interactingTilesList.take cap, c.interactingTilesList.length)

/-- Modelled from the spec: `updateNeighborListSize` checks whether the
neighbor-list arrays are large enough and, when the interaction count
overflows the capacity, grows the tile-indexed arrays by a multiplicative
factor past the observed count; otherwise it leaves the capacity unchanged. -/
def updateNeighborListSize (cap count : Nat) : Nat :=
  if count ≤ cap then cap else 12 * count / 10

/-- Modelled from the spec: the per-step engine state — the configuration,
the current capacity of the tile-indexed arrays, and the contents of the
`interactingTiles` and `interactionFlags` arrays. -/
structure EngineState where
  cfg : NbConfig
  maxTiles : Nat
  interactingTiles : List (Nat × Nat)
  interactionFlags : List Nat

/-- Modelled from the spec (sections 4.3, 4.5): `prepareInteractions` runs
discovery, and on overflow grows the capacity and re-runs discovery, leaving
the interacting-tile list and the per-tile interaction flags in the engine's
arrays. -/
def prepareInteractions (s : EngineState) : EngineState :=
  let count := (s.cfg.discoverWithCap s.maxTiles).2
  let cap := updateNeighborListSize s.maxTiles count
  let tiles := (s.cfg.discoverWithCap cap).1
  { s with
    maxTiles := cap
    interactingTiles := tiles
    interactionFlags := tiles.map (fun t => s.cfg.tileFlags t) }

/-! ### Exclusion encoder (C2)

The encoder and the body of `findExclusionIndex` are modelled from the
specification, section 4.2 (compressed sparse-row layout over tiles); the
`x < y` rejection is documented on the declaration itself (header lines
235-247). -/

/-- Modelled from the spec: the exclusion-encoder input — the number of
blocks, the block size, and the list of excluded particle pairs. -/
structure ExclConfig where
  numBlocks : Nat
  blockSize : Nat
  pairs : List (Nat × Nat)
deriving Repr

/-- The tile owning an excluded pair: `(block(max), block(min))`. -/
def ExclConfig.tileOfPair (c : ExclConfig) (p : Nat × Nat) : Nat × Nat :=
  (max p.1 p.2 / c.blockSize, min p.1 p.2 / c.blockSize)

/-- Whether tile `(x, y)` has a nonempty exclusion tile, i.e. some excluded
pair belongs to it. -/
def ExclConfig.tileHasExclusion (c : ExclConfig) (x y : Nat) : Bool :=
  c.pairs.any (fun p => c.tileOfPair p == (x, y))

/-- The exclusion bitmask of tile `(x, y)`: one bit per excluded pair that
belongs to the tile, at the canonical in-tile position
`(max mod blockSize) * blockSize + (min mod blockSize)`. -/
def ExclConfig.tileMask (c : ExclConfig) (x y : Nat) : Nat :=
  c.pairs.foldl
    (fun m p =>
      if c.tileOfPair p == (x, y)
      then m ||| 2 ^ ((max p.1 p.2 % c.blockSize) * c.blockSize +
                      (min p.1 p.2 % c.blockSize))
      else m) 0

/-- Row `y` of the encoding: the ascending list of block columns `x ≥ y`
whose tile `(x, y)` has a nonempty exclusion tile. -/
def ExclConfig.rowCols (c : ExclConfig) (y : Nat) : List Nat :=
  (List.range c.numBlocks).filter (fun x => y ≤ x && c.tileHasExclusion x y)

/-- The `exclusionIndices` array: the rows' column lists, concatenated in
row order. -/
def ExclConfig.exclusionIndices (c : ExclConfig) : List Nat :=
  ((List.range c.numBlocks).map (fun y => c.rowCols y)).flatten

/-- The `exclusionRowIndices` array: `exclusionRowIndices[y]` is the total
number of encoded tiles in rows before `y` (prefix sums, one entry per block
row plus a final total). -/
def ExclConfig.exclusionRowIndices (c : ExclConfig) : List Nat :=
  (List.range (c.numBlocks + 1)).map (fun y =>
    ((List.range y).map (fun r => (c.rowCols r).length)).sum)

/-- The `exclusions` array: the bitmask of each encoded tile, laid out in
the same order as `exclusionIndices`. -/
def ExclConfig.exclusionMasks (c : ExclConfig) : List Nat :=
  ((List.range c.numBlocks).map (fun y =>
    (c.rowCols y).map (fun x => c.tileMask x y))).flatten

/-- Modelled from the spec: `findExclusionIndex` rejects queries with
`x < y` (the header requires `x >= y` and documents that it throws
otherwise), and otherwise scans `exclusionIndices` within the row-`y`
segment `[exclusionRowIndices[y], exclusionRowIndices[y+1])` for the value
`x`, returning the position at which it is found; a tile that is not
encoded is also an error. -/
def findExclusionIndex (x y : Nat) (exclusionIndices exclusionRowIndices :
    List Nat) : Except String Nat :=
  if x < y then .error "Internal error: called findExclusionIndex with x < y"
  else
    match (List.range' (exclusionRowIndices.getD y 0)
        (exclusionRowIndices.getD (y + 1) 0 -
          exclusionRowIndices.getD y 0)).find?
        (fun p => exclusionIndices.getD p 0 == x) with
    | some p => .ok p
    | none => .error "Internal error: exclusion tile not found"

/-- The starting offset of row `y` in the flattened exclusion encoding: the
total number of encoded tiles in rows before `y`. -/
def ExclConfig.rowOffset (c : ExclConfig) (y : Nat) : Nat :=
  ((List.range y).map (fun r => (c.rowCols r).length)).sum

/-! ### Amoeba angle force, reference computation (C9, C10)

Embedded from `TestReferenceAmoebaAngleForce.cpp` in exact real arithmetic
(`double` becomes `ℝ`). -/

/-- A 3-D point with real coordinates. -/
abbrev RV3 : Type := ℝ × ℝ × ℝ

/-- The function `crossProductVector3` (test file, lines 69-76). -/
def crossProductVector3 (x y : RV3) : RV3 :=
  (x.2.1 * y.2.2 - x.2.2 * y.2.1,
   x.2.2 * y.1 - x.1 * y.2.2,
   x.1 * y.2.1 - x.2.1 * y.1)

/-- Squared Euclidean norm of a real 3-vector. -/
def rnorm2 (v : RV3) : ℝ := v.1 * v.1 + v.2.1 * v.2.1 + v.2.2 * v.2.2

/-- Componentwise scaling of a real 3-vector. -/
def rv3Scale (s : ℝ) (v : RV3) : RV3 := (s * v.1, s * v.2.1, s * v.2.2)

/-- The `RADIAN` constant of the test file (line 50). -/
def radianConst : ℝ := 57.29577951308

/-- The `PI_M` constant of the test file (line 49). -/
def piMConst : ℝ := 3.141592653589

/-- The function `getPrefactorsGivenAngleCosine` (test file, lines 78-120): returns the
pair `(dEdR, energyTerm)`. -/
noncomputable def getPrefactorsGivenAngleCosine
    (cosine idealAngle quadraticK cubicK quarticK penticK sexticK : ℝ) :
    ℝ × ℝ :=
  let angle : ℝ :=
    if 1 ≤ cosine then 0
    else if cosine ≤ -1 then radianConst * piMConst
    else radianConst * Real.arccos cosine
  let deltaIdeal := angle - idealAngle
  let deltaIdeal2 := deltaIdeal * deltaIdeal
  let deltaIdeal3 := deltaIdeal * deltaIdeal2
  let deltaIdeal4 := deltaIdeal2 * deltaIdeal2
  ((2.0 + 3.0 * cubicK * deltaIdeal + 4.0 * quarticK * deltaIdeal2 +
      5.0 * penticK * deltaIdeal3 + 6.0 * sexticK * deltaIdeal4) *
    (radianConst * quadraticK * deltaIdeal),
   (1.0 + cubicK * deltaIdeal + quarticK * deltaIdeal2 +
      penticK * deltaIdeal3 + sexticK * deltaIdeal4) *
    (quadraticK * deltaIdeal2))

/-- The cross product `pVector` of the two bond vectors in
`computeAmoebaAngleForce` (test file, lines 142-156). -/
def anglePVector (p1 p2 p3 : RV3) : RV3 :=
  crossProductVector3 (p1 - p2) (p3 - p2)

/-- The cross-product norm `rp` of `computeAmoebaAngleForce` (line 157),
before clamping. -/
noncomputable def angleRp (p1 p2 p3 : RV3) : ℝ :=
  Real.sqrt (rnorm2 (anglePVector p1 p2 p3))

/-- The norm `rp` after the clamp of lines 158-160:
`if (rp < 1.0e-06) rp = 1.0e-06;`. -/
noncomputable def angleRpClamped (p1 p2 p3 : RV3) : ℝ :=
  if angleRp p1 p2 p3 < 1.0e-6 then 1.0e-6 else angleRp p1 p2 p3

/-- The function `computeAmoebaAngleForce` (test file, lines 122-201), for one angle:
given the three particle positions and the angle parameters, returns the
three force increments added to particles 1, 2 and 3 and the energy term. -/
noncomputable def computeAmoebaAngleForce (p1 p2 p3 : RV3)
    (idealAngle quadraticK cubicK quarticK penticK sexticK : ℝ) :
    RV3 × RV3 × RV3 × ℝ :=
  let deltaR0 := p1 - p2
  let deltaR1 := p3 - p2
  let r2_0 := rnorm2 deltaR0
  let r2_1 := rnorm2 deltaR1
  let pVector := crossProductVector3 deltaR0 deltaR1
  let rp := angleRpClamped p1 p2 p3
  let dot := deltaR0.1 * deltaR1.1 + deltaR0.2.1 * deltaR1.2.1 +
    deltaR0.2.2 * deltaR1.2.2
  let cosine := dot / Real.sqrt (r2_0 * r2_1)
  let pre := getPrefactorsGivenAngleCosine cosine idealAngle quadraticK
    cubicK quarticK penticK sexticK
  let termA := -pre.1 / (r2_0 * rp)
  let termC := pre.1 / (r2_1 * rp)
  let deltaCrossP0 := rv3Scale termA (crossProductVector3 deltaR0 pVector)
  let deltaCrossP2 := rv3Scale termC (crossProductVector3 deltaR1 pVector)
  let deltaCrossP1 := -(deltaCrossP0 + deltaCrossP2)
  (deltaCrossP0, deltaCrossP1, deltaCrossP2, pre.2)

/-- A concrete configuration used to exercise the tile model: two particles
one unit apart in a single block, cutoff 2, no exclusions. -/
def sampleConfig : NbConfig :=
  { numAtoms := 2
    blockSize := 32
    pos := fun k => if k = 1 then (1, 0, 0) else (0, 0, 0)
    cutoff := 2
    excl := fun _ _ => false }

/-! ### Theorems -/

/-- C6: `getNumEnergyBuffers()` always returns exactly the product of the
values reported by `getNumForceThreadBlocks()` and
`getForceThreadBlockSize()`. -/
theorem getNumEnergyBuffers_eq_product (s : NbState) :
    s.getNumEnergyBuffers =
      s.getNumForceThreadBlocks * s.getForceThreadBlockSize := rfl

/-- C7: every `ParameterInfo` getter returns the supplied field unchanged;
the derived type tag is the component type suffixed with the count when the
count exceeds 1, and the bare component type when the count is 1; and
`getMemory` returns the stored device-memory handle. -/
theorem parameterInfo_getters (name ct : String) (n sz : Int) (mem : Nat) :
    ((ParameterInfo.make name ct n sz mem).getName = name ∧
     (ParameterInfo.make name ct n sz mem).getComponentType = ct ∧
     (ParameterInfo.make name ct n sz mem).getNumComponents = n ∧
     (ParameterInfo.make name ct n sz mem).getSize = sz ∧
     (ParameterInfo.make name ct n sz mem).getMemory = mem) ∧
    (1 < n →
      (ParameterInfo.make name ct n sz mem).getType = ct ++ toString n) ∧
    (n = 1 → (ParameterInfo.make name ct n sz mem).getType = ct) := by
  refine ⟨⟨rfl, rfl, rfl, rfl, rfl⟩, ?_, ?_⟩
  · intro h
    have hne : (n == 1) = false := by
      simp only [beq_eq_false_iff_ne]
      omega
    simp [ParameterInfo.make, ParameterInfo.getType, hne]
  · intro h
    subst h
    simp [ParameterInfo.make, ParameterInfo.getType]

/-- Witness for C7 at a concrete input. -/
theorem parameterInfo_getters_witness :
    (1 : Int) < 3 ∧
    (ParameterInfo.make "sigma" "float" 3 12 5).getType =
      "float" ++ toString (3 : Int) :=
  ⟨by decide, (parameterInfo_getters "sigma" "float" 3 12 5).2.1 (by decide)⟩

/-- C8: for every component count other than 1 — including zero and negative
counts — `getType()` is the component type with the count appended; the bare
component type arises only for count exactly 1. -/
theorem parameterInfo_getType_of_ne_one (name ct : String) (n sz : Int)
    (mem : Nat) (h : n ≠ 1) :
    (ParameterInfo.make name ct n sz mem).getType = ct ++ toString n := by
  have hne : (n == 1) = false := by
    simp only [beq_eq_false_iff_ne]
    exact h
  simp [ParameterInfo.make, ParameterInfo.getType, hne]

/-- Witness for C8 at component count 0: type tag `float0`. -/
theorem parameterInfo_getType_of_ne_one_witness :
    (0 : Int) ≠ 1 ∧ (ParameterInfo.make "x" "float" 0 4 0).getType = "float0" := by
  refine ⟨by decide, ?_⟩
  have h := parameterInfo_getType_of_ne_one "x" "float" 0 4 0 (by decide)
  rw [h]
  rfl

/-- After a nonempty sequence of `addInteraction` calls, the engine's cutoff
is the cutoff distance of one of the calls. -/
theorem addAll_cutoff_mem (cs : List AddInteractionCall) (s : NbState)
    (h : cs ≠ []) :
    ∃ call ∈ cs, (s.addAll cs).cutoff = call.cutoffDistance := by
  induction cs generalizing s with
  | nil => exact absurd rfl h
  | cons c rest ih =>
    cases rest with
    | nil =>
      exact ⟨c, List.mem_cons_self c [], rfl⟩
    | cons d t =>
      obtain ⟨call, hmem, heq⟩ := ih (s.addInteraction c) (by simp)
      exact ⟨call, List.mem_cons_of_mem c hmem, heq⟩

/-- C5 (amended): `getHasInteractions()` returns true iff at least one
interaction has been registered via `addInteraction`, the detection going
through the sentinel that the cutoff distance is still `-1.0` when nothing
has been registered — provided no registered term supplies the sentinel
value `-1.0` itself as its cutoff distance, a collision the sentinel scheme
cannot distinguish from the uninitialized state. -/
theorem getHasInteractions_iff_registered (cs : List AddInteractionCall)
    (nfb fbs : Int) (h : ∀ call ∈ cs, call.cutoffDistance ≠ -1) :
    ((NbState.init nfb fbs).addAll cs).getHasInteractions = true ↔ cs ≠ [] := by
  constructor
  · intro hhas hnil
    subst hnil
    simp [NbState.addAll, NbState.init, NbState.getHasInteractions] at hhas
  · intro hne
    obtain ⟨call, hmem, heq⟩ := addAll_cutoff_mem cs (NbState.init nfb fbs) hne
    simp [NbState.getHasInteractions, heq]
    exact h call hmem

/-- Witness for C5: a single registered interaction with cutoff distance 2
makes `getHasInteractions` report true. -/
theorem getHasInteractions_iff_registered_witness :
    (∀ call ∈ [(⟨true, false, false, 2, [], "", 0⟩ : AddInteractionCall)],
      call.cutoffDistance ≠ -1) ∧
    (((NbState.init 4 64).addAll
        [(⟨true, false, false, 2, [], "", 0⟩ :
          AddInteractionCall)]).getHasInteractions = true ↔
      [(⟨true, false, false, 2, [], "", 0⟩ : AddInteractionCall)] ≠ []) :=
  ⟨by decide, getHasInteractions_iff_registered _ 4 64 (by decide)⟩

/-- C5 counterexample: registering exactly one interaction whose cutoff
distance is the sentinel value `-1.0` leaves `getHasInteractions` false even
though the registration list is nonempty, so the unconditional claimed iff
fails at this input. -/
theorem getHasInteractions_sentinel_counterexample :
    ¬ ((((NbState.init 4 64).addAll
        [(⟨false, false, false, -1, [], "", 0⟩ :
          AddInteractionCall)]).getHasInteractions = true) ↔
      [(⟨false, false, false, -1, [], "", 0⟩ :
        AddInteractionCall)] ≠ []) := by
  decide

/-- The function `updateNeighborListSize` always leaves the capacity at least as large as
the interaction count it was given. -/
theorem le_updateNeighborListSize (cap count : Nat) :
    count ≤ updateNeighborListSize cap count := by
  unfold updateNeighborListSize
  by_cases h : count ≤ cap
  · rw [if_pos h]; exact h
  · rw [if_neg h]
    rw [Nat.le_div_iff_mul_le (by norm_num)]
    omega

/-- The function `updateNeighborListSize` is the identity when the count fits. -/
theorem updateNeighborListSize_of_le (cap count : Nat) (h : count ≤ cap) :
    updateNeighborListSize cap count = cap := if_pos h

/-- C4: calling `prepareInteractions` twice in a row without any change to
the particle positions produces identical `interactingTiles` and
`interactionFlags` contents after each of the two calls. -/
theorem prepareInteractions_idempotent (s : EngineState) :
    (prepareInteractions (prepareInteractions s)).interactingTiles =
      (prepareInteractions s).interactingTiles ∧
    (prepareInteractions (prepareInteractions s)).interactionFlags =
      (prepareInteractions s).interactionFlags := by
  have hcap : (s.cfg.discoverWithCap (prepareInteractions s).maxTiles).2 ≤
      (prepareInteractions s).maxTiles := by
    simp only [prepareInteractions, NbConfig.discoverWithCap]
    exact le_updateNeighborListSize s.maxTiles s.cfg.interactingTilesList.length
  have hcfg : (prepareInteractions s).cfg = s.cfg := rfl
  constructor
  · simp only [prepareInteractions, hcfg]
    rw [updateNeighborListSize_of_le]
    exact hcap
  · simp only [prepareInteractions, hcfg]
    rw [updateNeighborListSize_of_le]
    exact hcap

/-- C3: when the true interacting-tile count exceeds the current capacity,
growing the tile-indexed arrays via `updateNeighborListSize` and re-running
discovery yields exactly the interacting-tile list of a run with unbounded
capacity, and no tile discovered under the small capacity is lost. -/
theorem updateNeighborListSize_recovers (c : NbConfig) (cap : Nat)
    (h : cap < (c.discoverWithCap cap).2) :
    (c.discoverWithCap
        (updateNeighborListSize cap (c.discoverWithCap cap).2)).1 =
      c.interactingTilesList ∧
    ∀ t ∈ (c.discoverWithCap cap).1,
      t ∈ (c.discoverWithCap
        (updateNeighborListSize cap (c.discoverWithCap cap).2)).1 := by
  have hlen : (c.discoverWithCap cap).2 = c.interactingTilesList.length := rfl
  have hgrow := le_updateNeighborListSize cap (c.discoverWithCap cap).2
  rw [hlen] at hgrow
  have hfull : (c.discoverWithCap
      (updateNeighborListSize cap (c.discoverWithCap cap).2)).1 =
      c.interactingTilesList := by
    simp only [NbConfig.discoverWithCap]
    exact List.take_of_length_le hgrow
  refine ⟨hfull, ?_⟩
  intro t ht
  rw [hfull]
  exact List.mem_of_mem_take ht

/-- Witness for C3: three interacting tiles do not fit in a capacity of one;
after growth, discovery returns all three. -/
theorem updateNeighborListSize_recovers_witness :
    (1 <
      ((⟨2, 1, fun _ => (0, 0, 0), 10, fun _ _ => false⟩ :
        NbConfig).discoverWithCap 1).2) ∧
    (((⟨2, 1, fun _ => (0, 0, 0), 10, fun _ _ => false⟩ :
        NbConfig).discoverWithCap
        (updateNeighborListSize 1
          ((⟨2, 1, fun _ => (0, 0, 0), 10, fun _ _ => false⟩ :
            NbConfig).discoverWithCap 1).2)).1 =
      (⟨2, 1, fun _ => (0, 0, 0), 10, fun _ _ => false⟩ :
        NbConfig).interactingTilesList ∧
    ∀ t ∈ ((⟨2, 1, fun _ => (0, 0, 0), 10, fun _ _ => false⟩ :
        NbConfig).discoverWithCap 1).1,
      t ∈ ((⟨2, 1, fun _ => (0, 0, 0), 10, fun _ _ => false⟩ :
        NbConfig).discoverWithCap
        (updateNeighborListSize 1
          ((⟨2, 1, fun _ => (0, 0, 0), 10, fun _ _ => false⟩ :
            NbConfig).discoverWithCap 1).2)).1) :=
  ⟨by norm_num [NbConfig.discoverWithCap, NbConfig.interactingTilesList,
      NbConfig.allTiles, NbConfig.numBlocks, NbConfig.blockGap2, axisGap,
      NbConfig.blockCenter, NbConfig.blockExt, NbConfig.blockCoords,
      NbConfig.blockMembers, listMin, listMax, List.range_succ],
   updateNeighborListSize_recovers
     (⟨2, 1, fun _ => (0, 0, 0), 10, fun _ _ => false⟩ : NbConfig) 1
     (by norm_num [NbConfig.discoverWithCap, NbConfig.interactingTilesList,
        NbConfig.allTiles, NbConfig.numBlocks, NbConfig.blockGap2, axisGap,
        NbConfig.blockCenter, NbConfig.blockExt, NbConfig.blockCoords,
        NbConfig.blockMembers, listMin, listMax, List.range_succ])⟩

/-- C9: the cross-product norm `rp` is clamped to a minimum of `1.0e-06`
before the divisions computing `termA` and `termC`, so for every input
position set — including collinear particles, where the cross product is the
zero vector and the unclamped norm is zero — the divisor is never zero. -/
theorem angleRpClamped_never_zero (p1 p2 p3 : RV3) :
    (1.0e-6 : ℝ) ≤ angleRpClamped p1 p2 p3 ∧ angleRpClamped p1 p2 p3 ≠ 0 := by
  have hpos : (0 : ℝ) < 1.0e-6 := by norm_num
  unfold angleRpClamped
  by_cases hc : angleRp p1 p2 p3 < 1.0e-6
  · rw [if_pos hc]
    exact ⟨le_refl _, ne_of_gt hpos⟩
  · rw [if_neg hc]
    push_neg at hc
    exact ⟨hc, ne_of_gt (lt_of_lt_of_le hpos hc)⟩

/-- C10: for every input, the three force increments of
`computeAmoebaAngleForce` sum to the zero vector in exact arithmetic,
particle 2's increment being the negation of the sum of the other two. -/
theorem computeAmoebaAngleForce_increments_sum_zero (p1 p2 p3 : RV3)
    (idealAngle quadraticK cubicK quarticK penticK sexticK : ℝ) :
    (computeAmoebaAngleForce p1 p2 p3 idealAngle quadraticK cubicK quarticK
      penticK sexticK).1 +
    (computeAmoebaAngleForce p1 p2 p3 idealAngle quadraticK cubicK quarticK
      penticK sexticK).2.1 +
    (computeAmoebaAngleForce p1 p2 p3 idealAngle quadraticK cubicK quarticK
      penticK sexticK).2.2.1 = 0 := by
  have haux : ∀ a b : RV3, a + -(a + b) + b = 0 := by
    intro a b
    abel
  exact haux _ _

/-- Folding `min` over a list bounds the seed and every member from below. -/
theorem foldl_min_le (l : List ℚ) (a : ℚ) :
    l.foldl min a ≤ a ∧ ∀ x ∈ l, l.foldl min a ≤ x := by
  induction l generalizing a with
  | nil => exact ⟨le_refl a, by simp⟩
  | cons b t ih =>
    have h := ih (min a b)
    refine ⟨le_trans h.1 (min_le_left a b), ?_⟩
    intro x hx
    rcases List.mem_cons.mp hx with rfl | hx
    · exact le_trans h.1 (min_le_right a x)
    · exact h.2 x hx

/-- Folding `max` over a list bounds the seed and every member from above. -/
theorem le_foldl_max (l : List ℚ) (a : ℚ) :
    a ≤ l.foldl max a ∧ ∀ x ∈ l, x ≤ l.foldl max a := by
  induction l generalizing a with
  | nil => exact ⟨le_refl a, by simp⟩
  | cons b t ih =>
    have h := ih (max a b)
    refine ⟨le_trans (le_max_left a b) h.1, ?_⟩
    intro x hx
    rcases List.mem_cons.mp hx with rfl | hx
    · exact le_trans (le_max_right a x) h.1
    · exact h.2 x hx

/-- The value `listMin` is a lower bound of the list. -/
theorem listMin_le (l : List ℚ) (x : ℚ) (hx : x ∈ l) : listMin l ≤ x := by
  cases l with
  | nil => cases hx
  | cons a t =>
    rcases List.mem_cons.mp hx with rfl | hx
    · exact (foldl_min_le t x).1
    · exact (foldl_min_le t a).2 x hx

/-- The value `listMax` is an upper bound of the list. -/
theorem le_listMax (l : List ℚ) (x : ℚ) (hx : x ∈ l) : x ≤ listMax l := by
  cases l with
  | nil => cases hx
  | cons a t =>
    rcases List.mem_cons.mp hx with rfl | hx
    · exact (le_foldl_max t x).1
    · exact (le_foldl_max t a).2 x hx

/-- Every member of a block lies within the block's bounding box, along each
axis. -/
theorem abs_sub_blockCenter_le (c : NbConfig) (axis : V3 → ℚ) (b i : Nat)
    (hi : i ∈ c.blockMembers b) :
    |axis (c.pos i) - c.blockCenter axis b| ≤ c.blockExt axis b := by
  have hmem : axis (c.pos i) ∈ c.blockCoords axis b :=
    List.mem_map_of_mem (fun k => axis (c.pos k)) hi
  have h1 := listMin_le _ _ hmem
  have h2 := le_listMax _ _ hmem
  rw [abs_le]
  unfold NbConfig.blockCenter NbConfig.blockExt
  constructor <;> linarith

/-- The one-axis box separation is a lower bound for the distance of points
inside the boxes. -/
theorem axisGap_le_abs (c1 e1 c2 e2 a1 a2 : ℚ) (h1 : |a1 - c1| ≤ e1)
    (h2 : |a2 - c2| ≤ e2) : axisGap c1 e1 c2 e2 ≤ |a1 - a2| := by
  unfold axisGap
  apply max_le (abs_nonneg _)
  have t1 : |c1 - c2| ≤ |a1 - c1| + |a1 - a2| + |a2 - c2| := by
    have h3 : c1 - c2 = -(a1 - c1) + (a1 - a2) + (a2 - c2) := by ring
    rw [h3]
    calc |(-(a1 - c1) + (a1 - a2)) + (a2 - c2)|
        ≤ |(-(a1 - c1) + (a1 - a2))| + |a2 - c2| := abs_add _ _
      _ ≤ |(-(a1 - c1))| + |a1 - a2| + |a2 - c2| := by
          have := abs_add (-(a1 - c1)) (a1 - a2)
          linarith
      _ = |a1 - c1| + |a1 - a2| + |a2 - c2| := by rw [abs_neg]
  linarith

/-- Squared form of `axisGap_le_abs`. -/
theorem axisGap_sq_le (c1 e1 c2 e2 a1 a2 : ℚ) (h1 : |a1 - c1| ≤ e1)
    (h2 : |a2 - c2| ≤ e2) : axisGap c1 e1 c2 e2 ^ 2 ≤ (a1 - a2) ^ 2 := by
  have hle := axisGap_le_abs c1 e1 c2 e2 a1 a2 h1 h2
  have h0 : (0 : ℚ) ≤ axisGap c1 e1 c2 e2 := le_max_left 0 _
  calc axisGap c1 e1 c2 e2 ^ 2 ≤ |a1 - a2| ^ 2 := by
        exact pow_le_pow_left₀ h0 hle 2
    _ = (a1 - a2) ^ 2 := sq_abs _

/-- Conservativeness of block-pair pruning: the squared bounding-box
separation of two blocks never exceeds the squared distance of any two
particles drawn from them. -/
theorem blockGap2_le_dist2 (c : NbConfig) (b1 b2 i j : Nat)
    (hi : i ∈ c.blockMembers b1) (hj : j ∈ c.blockMembers b2) :
    c.blockGap2 b1 b2 ≤ dist2 (c.pos i) (c.pos j) := by
  unfold NbConfig.blockGap2 dist2
  have hx := axisGap_sq_le _ _ _ _ _ _
    (abs_sub_blockCenter_le c (fun p => p.1) b1 i hi)
    (abs_sub_blockCenter_le c (fun p => p.1) b2 j hj)
  have hy := axisGap_sq_le _ _ _ _ _ _
    (abs_sub_blockCenter_le c (fun p => p.2.1) b1 i hi)
    (abs_sub_blockCenter_le c (fun p => p.2.1) b2 j hj)
  have hz := axisGap_sq_le _ _ _ _ _ _
    (abs_sub_blockCenter_le c (fun p => p.2.2) b1 i hi)
    (abs_sub_blockCenter_le c (fun p => p.2.2) b2 j hj)
  linarith

/-- Every existing particle belongs to the block that owns it. -/
theorem mem_blockMembers_self (c : NbConfig) (i : Nat) (hi : i < c.numAtoms) :
    i ∈ c.blockMembers (c.blockOf i) := by
  unfold NbConfig.blockMembers NbConfig.blockOf
  rw [List.mem_filter]
  exact ⟨List.mem_range.mpr hi, by simp⟩

/-- The owning block of an existing particle is a valid block index. -/
theorem blockOf_lt_numBlocks (c : NbConfig) (i : Nat) (hbs : 0 < c.blockSize)
    (hi : i < c.numAtoms) : c.blockOf i < c.numBlocks := by
  unfold NbConfig.blockOf NbConfig.numBlocks
  have h1 : i / c.blockSize ≤ (c.numAtoms - 1) / c.blockSize :=
    Nat.div_le_div_right (by omega)
  have h2 : c.numAtoms + c.blockSize - 1 = (c.numAtoms - 1) + c.blockSize := by
    omega
  rw [h2, Nat.add_div_right _ hbs]
  omega

/-- Membership in the lower-triangular tile enumeration. -/
theorem mem_allTiles (c : NbConfig) (x y : Nat) :
    (x, y) ∈ c.allTiles ↔ x < c.numBlocks ∧ y ≤ x := by
  unfold NbConfig.allTiles
  simp only [List.mem_flatMap, List.mem_range, List.mem_map, Prod.mk.injEq]
  constructor
  · rintro ⟨a, ha, b, hb, rfl, rfl⟩
    omega
  · rintro ⟨hx, hy⟩
    exact ⟨x, hx, y, by omega, rfl, rfl⟩

/-- Membership in the discovered interacting-tile list. -/
theorem mem_interactingTilesList (c : NbConfig) (t : Nat × Nat) :
    t ∈ c.interactingTilesList ↔
      t ∈ c.allTiles ∧ c.blockGap2 t.1 t.2 ≤ c.cutoff ^ 2 := by
  unfold NbConfig.interactingTilesList
  rw [List.mem_filter]
  simp

/-- Squared distance is symmetric. -/
theorem dist2_comm (p q : V3) : dist2 p q = dist2 q p := by
  unfold dist2
  ring

/-- The squared distance of a pair is unchanged by canonical reordering. -/
theorem dist2_max_min (c : NbConfig) (i j : Nat) :
    dist2 (c.pos (max i j)) (c.pos (min i j)) = dist2 (c.pos i) (c.pos j) := by
  rcases le_total i j with h | h
  · rw [max_eq_right h, min_eq_left h, dist2_comm]
  · rw [max_eq_left h, min_eq_right h]

/-- C1: every particle pair within the cutoff distance and not excluded
appears in exactly one tile's interaction flags with its bit set, and every
excluded pair, regardless of distance, has its flag forced off in every tile
and so contributes nothing to the default kernel's forces and energy. -/
theorem pair_unique_tile_and_exclusion (c : NbConfig) (i j : Nat)
    (hbs : 0 < c.blockSize) (hi : i < c.numAtoms) (hj : j < c.numAtoms)
    (hij : i ≠ j) :
    (dist2 (c.pos i) (c.pos j) ≤ c.cutoff ^ 2 ∧ c.exclPair i j = false →
      ∃! t, c.appears t i j) ∧
    (c.exclPair i j = true →
      ∀ t e, c.flagSet t i j = false ∧ c.pairContribution e t i j = 0) := by
  constructor
  · rintro ⟨hdist, hexcl⟩
    have hmax : max i j < c.numAtoms := by omega
    have hmin : min i j < c.numAtoms := by omega
    refine ⟨c.tileOf i j, ⟨?_, ?_⟩, ?_⟩
    · rw [mem_interactingTilesList]
      constructor
      · show (c.blockOf (max i j), c.blockOf (min i j)) ∈ c.allTiles
        rw [mem_allTiles]
        exact ⟨blockOf_lt_numBlocks c _ hbs hmax,
          Nat.div_le_div_right (min_le_max)⟩
      · have hg := blockGap2_le_dist2 c _ _ (max i j) (min i j)
          (mem_blockMembers_self c _ hmax) (mem_blockMembers_self c _ hmin)
        rw [dist2_max_min] at hg
        exact le_trans hg hdist
    · simp [NbConfig.flagSet, hdist, hexcl, hi, hj, hij]
    · rintro t ⟨htmem, htf⟩
      have hbeq : (c.tileOf i j == t) = true := by
        simp only [NbConfig.flagSet, Bool.and_eq_true] at htf
        exact htf.1.1.1.1.1
      exact (beq_iff_eq.mp hbeq).symm
  · intro hexcl t e
    have hflag : c.flagSet t i j = false := by
      simp [NbConfig.flagSet, hexcl]
    exact ⟨hflag, by simp [NbConfig.pairContribution, hflag]⟩

/-- Witness for C1: two particles one unit apart, cutoff 2, one block, no
exclusions. -/
theorem pair_unique_tile_and_exclusion_witness :
    0 < sampleConfig.blockSize ∧ 0 < sampleConfig.numAtoms ∧
    1 < sampleConfig.numAtoms ∧ (0 : Nat) ≠ 1 ∧
    ((dist2 (sampleConfig.pos 0) (sampleConfig.pos 1) ≤
        sampleConfig.cutoff ^ 2 ∧ sampleConfig.exclPair 0 1 = false →
      ∃! t, sampleConfig.appears t 0 1) ∧
    (sampleConfig.exclPair 0 1 = true →
      ∀ t e, sampleConfig.flagSet t 0 1 = false ∧
        sampleConfig.pairContribution e t 0 1 = 0)) :=
  ⟨by decide, by decide, by decide, by decide,
   pair_unique_tile_and_exclusion sampleConfig 0 1
     (by decide) (by decide) (by decide) (by decide)⟩

/-- Indexing a flattened list of lists inside the segment of row `y`. -/
theorem flatten_getD_segment (L : List (List Nat)) (y k : Nat)
    (hy : y < L.length) (hk : k < (L.getD y []).length) :
    L.flatten.getD (((L.take y).map List.length).sum + k) 0 =
      (L.getD y []).getD k 0 := by
  induction L generalizing y with
  | nil => simp at hy
  | cons r rest ih =>
    cases y with
    | zero =>
      have hk' : k < r.length := hk
      simp only [List.take_zero, List.map_nil, List.sum_nil, Nat.zero_add,
        List.flatten_cons]
      rw [List.getD_append _ _ _ k hk']
      rfl
    | succ y' =>
      have hy' : y' < rest.length := by
        simp at hy
        omega
      have hk' : k < (rest.getD y' []).length := hk
      simp only [List.take_succ_cons, List.map_cons, List.sum_cons,
        List.flatten_cons]
      rw [List.getD_append_right _ _ _ _ (by omega)]
      have harith : r.length + ((rest.take y').map List.length).sum + k -
          r.length = ((rest.take y').map List.length).sum + k := by omega
      rw [harith]
      exact ih y' hy' hk'

/-- Reading `getD` through a `map`, inside bounds. -/
theorem getD_map_lt (f : Nat → Nat) (l : List Nat) (k : Nat)
    (hk : k < l.length) (d d' : Nat) :
    (l.map f).getD k d = f (l.getD k d') := by
  rw [List.getD_eq_getElem?_getD, List.getElem?_map,
    List.getElem?_eq_getElem hk, List.getD_eq_getElem?_getD,
    List.getElem?_eq_getElem hk]
  rfl

/-- The row offsets are the prefix sums exposed by `exclusionRowIndices`. -/
theorem exclusionRowIndices_getD (c : ExclConfig) (y : Nat)
    (hy : y < c.numBlocks + 1) :
    c.exclusionRowIndices.getD y 0 = c.rowOffset y := by
  unfold ExclConfig.exclusionRowIndices ExclConfig.rowOffset
  rw [List.getD_eq_getElem?_getD, List.getElem?_map, List.getElem?_range hy]
  rfl

/-- The offset of row `y + 1` extends the offset of row `y` by row `y`'s
tile count. -/
theorem rowOffset_succ (c : ExclConfig) (y : Nat) :
    c.rowOffset (y + 1) = c.rowOffset y + (c.rowCols y).length := by
  unfold ExclConfig.rowOffset
  rw [List.range_succ, List.map_append, List.sum_append]
  simp

/-- The prefix of the rows' lists taken `y` at a time has the lengths summed
by `rowOffset`, for both parallel layouts. -/
theorem take_map_rowCols_sum (c : ExclConfig) (y : Nat)
    (hy : y ≤ c.numBlocks) :
    ((((List.range c.numBlocks).map (fun r => c.rowCols r)).take y).map
      List.length).sum = c.rowOffset y := by
  rw [← List.map_take, List.take_range, Nat.min_eq_left hy, List.map_map]
  rfl

/-- Like `take_map_rowCols_sum`, for the mask layout. -/
theorem take_map_masks_sum (c : ExclConfig) (y : Nat)
    (hy : y ≤ c.numBlocks) :
    ((((List.range c.numBlocks).map (fun r =>
      (c.rowCols r).map (fun x => c.tileMask x r))).take y).map
      List.length).sum = c.rowOffset y := by
  rw [← List.map_take, List.take_range, Nat.min_eq_left hy, List.map_map]
  unfold ExclConfig.rowOffset
  congr 1
  apply List.map_congr_left
  intro r _
  simp

/-- Indexing `exclusionIndices` inside row `y`'s segment gives row `y`'s
column list. -/
theorem exclusionIndices_getD (c : ExclConfig) (y k : Nat)
    (hy : y < c.numBlocks) (hk : k < (c.rowCols y).length) :
    c.exclusionIndices.getD (c.rowOffset y + k) 0 = (c.rowCols y).getD k 0 := by
  unfold ExclConfig.exclusionIndices
  have hlen : y < ((List.range c.numBlocks).map (fun r => c.rowCols r)).length := by
    simp [hy]
  have hgetD : ((List.range c.numBlocks).map (fun r => c.rowCols r)).getD y [] =
      c.rowCols y := by
    rw [List.getD_eq_getElem?_getD, List.getElem?_map, List.getElem?_range hy]
    rfl
  have h := flatten_getD_segment
    ((List.range c.numBlocks).map (fun r => c.rowCols r)) y k hlen
    (by rw [hgetD]; exact hk)
  rw [take_map_rowCols_sum c y (le_of_lt hy), hgetD] at h
  exact h

/-- Indexing `exclusionMasks` inside row `y`'s segment gives the mask of the
column recorded at the same position of `exclusionIndices`. -/
theorem exclusionMasks_getD (c : ExclConfig) (y k : Nat)
    (hy : y < c.numBlocks) (hk : k < (c.rowCols y).length) :
    c.exclusionMasks.getD (c.rowOffset y + k) 0 =
      c.tileMask ((c.rowCols y).getD k 0) y := by
  unfold ExclConfig.exclusionMasks
  have hlen : y < ((List.range c.numBlocks).map (fun r =>
      (c.rowCols r).map (fun x => c.tileMask x r))).length := by
    simp [hy]
  have hgetD : ((List.range c.numBlocks).map (fun r =>
      (c.rowCols r).map (fun x => c.tileMask x r))).getD y [] =
      (c.rowCols y).map (fun x => c.tileMask x y) := by
    rw [List.getD_eq_getElem?_getD, List.getElem?_map, List.getElem?_range hy]
    rfl
  have h := flatten_getD_segment
    ((List.range c.numBlocks).map (fun r =>
      (c.rowCols r).map (fun x => c.tileMask x r))) y k hlen
    (by rw [hgetD]; simpa using hk)
  rw [take_map_masks_sum c y (le_of_lt hy), hgetD] at h
  rw [h]
  exact getD_map_lt _ _ k hk 0 0

/-- Membership in a row's column list. -/
theorem mem_rowCols (c : ExclConfig) (x y : Nat) :
    x ∈ c.rowCols y ↔ x < c.numBlocks ∧ y ≤ x ∧
      c.tileHasExclusion x y = true := by
  unfold ExclConfig.rowCols
  rw [List.mem_filter, List.mem_range]
  simp [Bool.and_eq_true, decide_eq_true_iff]

/-- C2: for tiles `(x, y)` with `x >= y` that have a nonempty exclusion
tile, `findExclusionIndex` returns a position `p` at which the `exclusions`
array holds the bitmask for tile `(x, y)`; for every call with `x < y` it
rejects with an error. -/
theorem findExclusionIndex_correct (c : ExclConfig) (x y : Nat) :
    (y ≤ x → x < c.numBlocks → c.tileHasExclusion x y = true →
      ∃ p, findExclusionIndex x y c.exclusionIndices c.exclusionRowIndices =
          Except.ok p ∧
        c.exclusionMasks.getD p 0 = c.tileMask x y) ∧
    (x < y → ∃ msg, findExclusionIndex x y c.exclusionIndices
        c.exclusionRowIndices = Except.error msg) := by
  constructor
  · intro hyx hx hhas
    have hylt : y < c.numBlocks := lt_of_le_of_lt hyx hx
    have hstart : c.exclusionRowIndices.getD y 0 = c.rowOffset y :=
      exclusionRowIndices_getD c y (by omega)
    have hstop : c.exclusionRowIndices.getD (y + 1) 0 =
        c.rowOffset y + (c.rowCols y).length := by
      rw [exclusionRowIndices_getD c (y + 1) (by omega), rowOffset_succ]
    have hxmem : x ∈ c.rowCols y := (mem_rowCols c x y).mpr ⟨hx, hyx, hhas⟩
    obtain ⟨⟨k, hk⟩, hget⟩ := List.mem_iff_get.mp hxmem
    have hgetD : (c.rowCols y).getD k 0 = x := by
      rw [List.getD_eq_getElem?_getD, List.getElem?_eq_getElem hk]
      exact hget
    have hpred : (c.exclusionIndices.getD (c.rowOffset y + k) 0 == x)
        = true := by
      rw [exclusionIndices_getD c y k hylt hk, hgetD]
      exact beq_self_eq_true x
    have hmem' : c.rowOffset y + k ∈
        List.range' (c.rowOffset y) (c.rowCols y).length :=
      List.mem_range'_1.mpr ⟨Nat.le_add_right _ _, by omega⟩
    have hsome : ((List.range' (c.rowOffset y)
        (c.rowCols y).length).find?
        (fun p => c.exclusionIndices.getD p 0 == x)).isSome = true :=
      List.find?_isSome.mpr ⟨c.rowOffset y + k, hmem', hpred⟩
    obtain ⟨p, hp⟩ := Option.isSome_iff_exists.mp hsome
    have hpp := List.find?_some hp
    have hpm := List.mem_range'_1.mp (List.mem_of_find?_eq_some hp)
    have hk' : p - c.rowOffset y < (c.rowCols y).length := by omega
    have hsplit : c.rowOffset y + (p - c.rowOffset y) = p := by omega
    have hxeq : (c.rowCols y).getD (p - c.rowOffset y) 0 = x := by
      have h1 := exclusionIndices_getD c y (p - c.rowOffset y) hylt hk'
      rw [hsplit] at h1
      rw [← h1]
      exact eq_of_beq hpp
    refine ⟨p, ?_, ?_⟩
    · unfold findExclusionIndex
      rw [if_neg (by omega), hstart, hstop]
      have harith : c.rowOffset y + (c.rowCols y).length - c.rowOffset y =
          (c.rowCols y).length := by omega
      rw [harith, hp]
    · have hmask := exclusionMasks_getD c y (p - c.rowOffset y) hylt hk'
      rw [hsplit, hxeq] at hmask
      exact hmask
  · intro hxy
    unfold findExclusionIndex
    rw [if_pos hxy]
    exact ⟨_, rfl⟩

/-- Witness for C2: two blocks of one particle each, the pair `(1, 0)`
excluded; the tile `(1, 0)` is found at position 0, and the query `(0, 1)`
is rejected. -/
theorem findExclusionIndex_correct_witness :
    ((0 ≤ 1 ∧ 1 < (⟨2, 1, [(1, 0)]⟩ : ExclConfig).numBlocks ∧
      (⟨2, 1, [(1, 0)]⟩ : ExclConfig).tileHasExclusion 1 0 = true) ∧
     ∃ p, findExclusionIndex 1 0
          (⟨2, 1, [(1, 0)]⟩ : ExclConfig).exclusionIndices
          (⟨2, 1, [(1, 0)]⟩ : ExclConfig).exclusionRowIndices =
          Except.ok p ∧
        (⟨2, 1, [(1, 0)]⟩ : ExclConfig).exclusionMasks.getD p 0 =
          (⟨2, 1, [(1, 0)]⟩ : ExclConfig).tileMask 1 0) ∧
    (0 < 1 ∧ ∃ msg, findExclusionIndex 0 1
        (⟨2, 1, [(1, 0)]⟩ : ExclConfig).exclusionIndices
        (⟨2, 1, [(1, 0)]⟩ : ExclConfig).exclusionRowIndices =
        Except.error msg) :=
  ⟨⟨⟨by decide, by decide, by decide⟩,
    (findExclusionIndex_correct (⟨2, 1, [(1, 0)]⟩ : ExclConfig) 1 0).1
      (by decide) (by decide) (by decide)⟩,
   ⟨by decide,
    (findExclusionIndex_correct (⟨2, 1, [(1, 0)]⟩ : ExclConfig) 0 1).2
      (by decide)⟩⟩

end OpenMMSpec
